import Mathlib

/-!
Shallow embedding of the `possibly_uninit` crate's core: the `OutSlice`
storage view over possibly-uninitialized cells, the zero-validity
classifier (`src/zeroed.rs`), and the initialization `Cursor`
(`src/slice/cursor.rs`).

A region of possibly-uninitialized memory is modelled as a list of cells,
each cell either `uninit` (arbitrary bits, same as `MaybeUninit` with no
value written) or `init a` (holds the valid value `a`).  Reading a cell as
initialized (`assume_init` and friends, which is undefined behavior on an
unwritten cell in the source) is modelled as a partial read returning
`Option`.  Panics are modelled as `none` results.
-/

namespace PossiblyUninit

/-- One element-sized memory cell: either unwritten (`MaybeUninit::uninit`)
or holding a valid value of the element type. -/
inductive Cell (α : Type) where
  | uninit : Cell α
  | init : α → Cell α
  deriving DecidableEq, Repr

/-- Reading a cell as an initialized value (`assume_init_ref` on one cell);
reading an unwritten cell is undefined behavior in the source, modelled as
`none`. -/
def Cell.read : Cell α → Option α
  | Cell.uninit => none
  | Cell.init a => some a

/-- Reading a whole region as initialized (`OutSlice::assume_init` /
`assume_init_mut`): succeeds exactly when every cell is written. -/
def readCells : List (Cell α) → Option (List α)
  | [] => some []
  | c :: cs =>
    match c.read, readCells cs with
    | some v, some vs => some (v :: vs)
    | _, _ => none

/-- The zero-validity classifier of `src/zeroed.rs`: a type for which
overwriting every byte with zero produces a valid value; `zeroed` is that
canonical all-zero value. -/
class ZeroValid (α : Type) where
  zeroed : α

instance : ZeroValid Nat := ⟨0⟩

instance : ZeroValid Int := ⟨0⟩

instance : ZeroValid Bool := ⟨false⟩

namespace OutSlice

/-- `OutSlice::write_zeroes` (src/slice/mod.rs lines 186-191): overwrites
every byte of every cell with zero — for a zero-valid element type each
cell thus holds the canonical zero value — then returns the whole slice
via `assume_init_mut`.  Result: the new cell contents and the returned
initialized slice. -/
def write_zeroes (cells : List (Cell α)) [ZeroValid α] :
    List (Cell α) × Option (List α) :=
  let z := cells.map fun _ => Cell.init (ZeroValid.zeroed : α)
  (z, readCells z)

/-- Recursion core of `OutSlice::init_from_iter`: the zip of the
destination iterator with the source iterator.  Rust's `Zip` polls the
destination (`self.iter_mut()`, the first component) first and only polls
the source when a destination cell was produced.  Returns the updated
cells, the part of the source not pulled, and the count of writes. -/
def initFromIterGo : List (Cell α) → List α → List (Cell α) × List α × Nat
  | [], src => ([], src, 0)
  | d :: ds, [] => (d :: ds, [], 0)
  | _ :: ds, s :: ss =>
    let r := initFromIterGo ds ss
    (Cell.init s :: r.1, r.2.1, r.2.2 + 1)

/-- `OutSlice::init_from_iter` (src/slice/mod.rs lines 194-203): writes
elements of the source into successive cells via the zip above, then
returns `self[..len].assume_init_mut()` — the newly written part.
Result: updated cells, the count of writes, the returned slice, and the
unconsumed remainder of the source. -/
def init_from_iter (dest : List (Cell α)) (src : List α) :
    List (Cell α) × Nat × Option (List α) × List α :=
  match initFromIterGo dest src with
  | (dest2, rest, n) => (dest2, n, readCells (dest2.take n), rest)

/-- `OutSlice::copy_from_slice` (src/slice/mod.rs lines 214-219): copies
the source slice into the destination via the standard library's
`copy_from_slice`, which panics when the lengths differ (modelled as
`none`), then returns the whole slice via `assume_init_mut`. -/
def copy_from_slice (dest : List (Cell α)) (src : List α) :
    Option (List (Cell α) × List α) :=
  if dest.length = src.length then some (src.map Cell.init, src) else none

end OutSlice

namespace BorrowOutSlice

/-- `BorrowOutSlice::init_with_copy_from_slice_min` (src/slice/mod.rs
lines 393-398): copies `min(dest.len, src.len)` elements by applying the
exact-length copy to equal-length subslices.  Result: the updated full
destination and the returned copied slice (wrapped in the panic monad of
the underlying exact-length copy). -/
def init_with_copy_from_slice_min (dest : List (Cell α)) (src : List α) :
    Option (List (Cell α) × List α) :=
  let to_copy := Nat.min dest.length src.length
  (OutSlice.copy_from_slice (dest.take to_copy) (src.take to_copy)).map
    fun r => (r.1 ++ dest.drop to_copy, r.2)

/-- Default `BorrowOutSlice::zero_if_needed` (src/slice/mod.rs lines
373-378), used for buffers of possibly-uninitialized cells: zero the
whole buffer, then return it via `assume_init_mut`. -/
def zero_if_needed_default (cells : List (Cell α)) [ZeroValid α] :
    List (Cell α) × Option (List α) :=
  match OutSlice.write_zeroes cells with
  | (cells2, _) => (cells2, readCells cells2)

/-- Override of `zero_if_needed` in `impl BorrowOutSlice<Item> for [Item]`
(src/slice/mod.rs lines 435-437), used for buffers backed by an
already-initialized slice: returns the slice unchanged, no zeroing. -/
def zero_if_needed_slice (xs : List α) : List α :=
  xs

end BorrowOutSlice

/-- The initialization cursor of `src/slice/cursor.rs`: a storage region
plus the count of written leading cells. -/
structure Cursor (α : Type) where
  position : Nat
  data : List (Cell α)
  deriving DecidableEq, Repr

namespace Cursor

/-- `Cursor::new`: position 0 over the given buffer. -/
def new (buf : List (Cell α)) : Cursor α :=
  { position := 0, data := buf }

/-- `Cursor::from_vec_preserving_len` (src/slice/cursor.rs lines 175-180):
the buffer is the vector's whole capacity (its elements followed by the
spare uninitialized capacity cells) and the position is the vector's
length. -/
def from_vec_preserving_len (vec : List α) (spare : Nat) : Cursor α :=
  { position := vec.length
    data := vec.map Cell.init ++ List.replicate spare Cell.uninit }

/-- `Cursor::push` (src/slice/cursor.rs lines 45-53): when the position is
in bounds, writes the item into the cell at the position and increments
the position, returning a reference to the written cell (`Except.ok` with
the value it now holds); otherwise hands the item back (`Except.error`). -/
def push (c : Cursor α) (item : α) : Cursor α × Except α α :=
  if c.position < c.data.length then
    ({ position := c.position + 1
       data := c.data.set c.position (Cell.init item) },
     Except.ok item)
  else
    (c, Except.error item)

/-- `Cursor::remaining_count`: length of the buffer minus the position. -/
def remaining_count (c : Cursor α) : Nat :=
  c.data.length - c.position

/-- `Cursor::reset`: sets the position to 0 without touching memory. -/
def reset (c : Cursor α) : Cursor α :=
  { c with position := 0 }

/-- `Cursor::written` (src/slice/cursor.rs lines 77-82): the prefix
`[0, position)` read as initialized. -/
def written (c : Cursor α) : Option (List α) :=
  readCells (c.data.take c.position)

/-- `Cursor::push_iter` (src/slice/cursor.rs lines 60-64): runs
`init_from_iter` on the subslice starting at the position and advances
the position by the length of the returned slice.  Result: the new
cursor, the returned just-written slice, and the unconsumed remainder of
the source. -/
def push_iter (c : Cursor α) (src : List α) :
    Cursor α × Option (List α) × List α :=
  match OutSlice.init_from_iter (c.data.drop c.position) src with
  | (tail2, n, res, rest) =>
    ({ position := c.position + n, data := c.data.take c.position ++ tail2 },
     res, rest)

/-- `Cursor::pop` (src/slice/cursor.rs lines 97-109): when the position is
positive (and the cell below it is in bounds), copies that cell out via
`assume_init_ref` and decrements the position. -/
def pop (c : Cursor α) : Cursor α × Option α :=
  if 0 < c.position ∧ c.position - 1 < c.data.length then
    ({ c with position := c.position - 1 },
     (c.data.get? (c.position - 1)).bind Cell.read)
  else
    (c, none)

/-- `Cursor::pop_slice` (src/slice/cursor.rs lines 114-121): removes
`to_remove = min(position, max)` trailing written cells, returning the
subslice `[position - to_remove, position)` as initialized and
decrementing the position by `to_remove`. -/
def pop_slice (c : Cursor α) (max : Nat) : Cursor α × Option (List α) :=
  let to_remove := Nat.min c.position max
  ({ c with position := c.position - to_remove },
   readCells ((c.data.take c.position).drop (c.position - to_remove)))

/-- `Cursor::try_pop_slice` (src/slice/cursor.rs lines 127-133): pops
exactly `required` cells via `pop_slice` when `position >= required`,
otherwise returns `none` leaving the cursor untouched. -/
def try_pop_slice (c : Cursor α) (required : Nat) :
    Cursor α × Option (Option (List α)) :=
  if c.position ≥ required then
    match c.pop_slice required with
    | (c2, s) => (c2, some s)
  else
    (c, none)

/-- `Cursor::try_cast_initialized` (src/slice/cursor.rs lines 146-154):
when the position equals the buffer length, casts the backing container
to its initialized counterpart (a type-level no-op, so the result holds
exactly the cells read as initialized); otherwise returns the cursor
unchanged as the error. -/
def try_cast_initialized (c : Cursor α) : Except (Cursor α) (Option (List α)) :=
  if c.position = c.data.length then
    Except.ok (readCells c.data)
  else
    Except.error c

/-- Pushing a list of values one by one, discarding the per-push results
(the driver loop of the fill/drain round-trip property). -/
def pushAll (c : Cursor α) : List α → Cursor α
  | [] => c
  | v :: vs => ((c.push v).1).pushAll vs

/-- Popping `n` times in sequence, collecting each result. -/
def popN (c : Cursor α) : Nat → Cursor α × List (Option α)
  | 0 => (c, [])
  | n + 1 =>
    match c.pop with
    | (c1, r) =>
      match c1.popN n with
      | (c2, rs) => (c2, r :: rs)

end Cursor

section Helpers

variable {α : Type} {β : Type}

/-- Setting the element just past a block appended on the left. -/
theorem set_append_length (pre post : List β) (x : β) :
    (pre ++ post).set pre.length x = pre ++ post.set 0 x := by
  induction pre with
  | nil => rfl
  | cons a t ih => simp [List.set, ih]

/-- Lookup at the index just past a block appended on the left. -/
theorem get_append_length (pre : List β) (x : β) (post : List β) :
    (pre ++ x :: post).get? pre.length = some x := by
  induction pre with
  | nil => rfl
  | cons a t ih => simpa using ih

/-- A region of written cells reads back as exactly its values. -/
theorem readCells_map_init (l : List α) :
    readCells (l.map Cell.init) = some l := by
  induction l with
  | nil => rfl
  | cons a t ih => simp [readCells, Cell.read, ih]

/-- A successful region read has one value per cell. -/
theorem readCells_length {xs : List (Cell α)} {l : List α}
    (h : readCells xs = some l) : l.length = xs.length := by
  induction xs generalizing l with
  | nil => simp [readCells] at h; simp [← h]
  | cons c cs ih =>
    cases hr : c.read with
    | none => simp [readCells, hr] at h
    | some v =>
      cases hc : readCells cs with
      | none => simp [readCells, hr, hc] at h
      | some vs =>
        simp [readCells, hr, hc] at h
        simp [← h, ih hc]

/-- Dropping cells commutes with a successful region read. -/
theorem readCells_drop {xs : List (Cell α)} {l : List α}
    (h : readCells xs = some l) (n : Nat) :
    readCells (xs.drop n) = some (l.drop n) := by
  induction xs generalizing l n with
  | nil =>
    simp [readCells] at h
    subst h
    simp [readCells]
  | cons c cs ih =>
    cases hr : c.read with
    | none => simp [readCells, hr] at h
    | some v =>
      cases hc : readCells cs with
      | none => simp [readCells, hr, hc] at h
      | some vs =>
        simp [readCells, hr, hc] at h
        cases n with
        | zero => simp [← h, readCells, hr, hc]
        | succ m => simp [← h, ih hc]

/-- Mapping a constant function is a `replicate`. -/
theorem map_const_replicate (l : List α) (x : β) :
    l.map (fun _ => x) = List.replicate l.length x := by
  induction l with
  | nil => rfl
  | cons a t ih => simp [List.replicate, ih]

/-- Closed form of the destination-first zip that drives
`OutSlice::init_from_iter`: the first `min` cells become the source's
values, the rest are untouched, exactly `min` source elements are
consumed, and the count of writes is `min`. -/
theorem initFromIterGo_eq (dest : List (Cell α)) (src : List α) :
    OutSlice.initFromIterGo dest src
      = ((src.take (Nat.min dest.length src.length)).map Cell.init
           ++ dest.drop (Nat.min dest.length src.length),
         src.drop (Nat.min dest.length src.length),
         Nat.min dest.length src.length) := by
  induction dest generalizing src with
  | nil => simp [OutSlice.initFromIterGo]
  | cons d ds ih =>
    cases src with
    | nil => simp [OutSlice.initFromIterGo]
    | cons s ss =>
      simp [OutSlice.initFromIterGo, ih ss, Nat.succ_min_succ, List.take_succ_cons,
        List.drop_succ_cons, List.map_take]

/-- Lookup at the index just written by `set`. -/
theorem get_set_length (l : List β) (i : Nat) (x : β) (h : i < l.length) :
    (l.set i x).get? i = some x := by
  induction l generalizing i with
  | nil => simp at h
  | cons a t ih =>
    cases i with
    | zero => rfl
    | succ m => simpa using ih m (by simpa using h)

end Helpers

example : (Cursor.new [Cell.uninit, Cell.uninit]).push (5 : Nat)
    = ({ position := 1, data := [Cell.init 5, Cell.uninit] }, Except.ok 5) := rfl

example : ((Cursor.new [Cell.uninit, Cell.uninit]).pushAll [3, 7]).popN 2
    = ({ position := 0, data := [Cell.init 3, Cell.init 7] },
       [some (7 : Nat), some 3]) := by decide

section Claims

variable {α : Type}

/-- C1: every public cursor operation (`new` at position 0,
`from_vec_preserving_len`, `push`, `push_iter`, `pop`, `pop_slice`,
`try_pop_slice`, `reset`) keeps the invariant
`0 ≤ position ≤ length of the backing buffer`: each constructor
establishes it and each transition preserves it (the lower bound is
automatic for naturals). -/
theorem cursor_position_bounds (buf : List (Cell α)) (vec : List α) (spare : Nat)
    (c : Cursor α) (x : α) (src : List α) (m r : Nat) :
    (Cursor.new buf).position ≤ (Cursor.new buf).data.length ∧
    (Cursor.from_vec_preserving_len vec spare).position
      ≤ (Cursor.from_vec_preserving_len vec spare).data.length ∧
    (c.position ≤ c.data.length →
      (c.push x).1.position ≤ (c.push x).1.data.length) ∧
    (c.position ≤ c.data.length →
      (c.push_iter src).1.position ≤ (c.push_iter src).1.data.length) ∧
    (c.position ≤ c.data.length →
      c.pop.1.position ≤ c.pop.1.data.length) ∧
    (c.position ≤ c.data.length →
      (c.pop_slice m).1.position ≤ (c.pop_slice m).1.data.length) ∧
    (c.position ≤ c.data.length →
      (c.try_pop_slice r).1.position ≤ (c.try_pop_slice r).1.data.length) ∧
    c.reset.position ≤ c.reset.data.length := by
  refine ⟨?_, ?_, ?_, ?_, ?_, ?_, ?_, ?_⟩
  · simp [Cursor.new]
  · simp [Cursor.from_vec_preserving_len]
  · intro h
    simp only [Cursor.push]
    split
    · simpa [List.length_set] using (by omega : c.position + 1 ≤ c.data.length)
    · exact h
  · intro h
    simp [Cursor.push_iter, OutSlice.init_from_iter, initFromIterGo_eq,
      List.length_append, List.length_take, List.length_drop, List.length_map]
    omega
  · intro h
    simp only [Cursor.pop]
    split
    · simpa using (by omega : c.position - 1 ≤ c.data.length)
    · exact h
  · intro h
    simp [Cursor.pop_slice]
    omega
  · intro h
    simp only [Cursor.try_pop_slice]
    split
    · simp [Cursor.pop_slice]
      omega
    · exact h
  · simp [Cursor.reset]

/-- Witness for C1 at concrete cursors. -/
theorem cursor_position_bounds_witness :
    (Cursor.new [Cell.uninit, Cell.init (3 : Nat)]).position
      ≤ (Cursor.new [Cell.uninit, Cell.init (3 : Nat)]).data.length ∧
    (Cursor.from_vec_preserving_len [(4 : Nat)] 2).position
      ≤ (Cursor.from_vec_preserving_len [(4 : Nat)] 2).data.length ∧
    ((⟨1, [Cell.init (5 : Nat), Cell.uninit]⟩ : Cursor Nat).push 7).1.position
      ≤ ((⟨1, [Cell.init (5 : Nat), Cell.uninit]⟩ : Cursor Nat).push 7).1.data.length ∧
    ((⟨1, [Cell.init (5 : Nat), Cell.uninit]⟩ : Cursor Nat).push_iter [8, 9]).1.position
      ≤ ((⟨1, [Cell.init (5 : Nat), Cell.uninit]⟩ : Cursor Nat).push_iter [8, 9]).1.data.length ∧
    (⟨1, [Cell.init (5 : Nat), Cell.uninit]⟩ : Cursor Nat).pop.1.position
      ≤ (⟨1, [Cell.init (5 : Nat), Cell.uninit]⟩ : Cursor Nat).pop.1.data.length ∧
    ((⟨1, [Cell.init (5 : Nat), Cell.uninit]⟩ : Cursor Nat).pop_slice 3).1.position
      ≤ ((⟨1, [Cell.init (5 : Nat), Cell.uninit]⟩ : Cursor Nat).pop_slice 3).1.data.length ∧
    ((⟨1, [Cell.init (5 : Nat), Cell.uninit]⟩ : Cursor Nat).try_pop_slice 1).1.position
      ≤ ((⟨1, [Cell.init (5 : Nat), Cell.uninit]⟩ : Cursor Nat).try_pop_slice 1).1.data.length ∧
    (⟨1, [Cell.init (5 : Nat), Cell.uninit]⟩ : Cursor Nat).reset.position
      ≤ (⟨1, [Cell.init (5 : Nat), Cell.uninit]⟩ : Cursor Nat).reset.data.length := by
  have h := cursor_position_bounds [Cell.uninit, Cell.init (3 : Nat)] [(4 : Nat)] 2
    (⟨1, [Cell.init (5 : Nat), Cell.uninit]⟩ : Cursor Nat) 7 [8, 9] 3 1
  exact ⟨h.1, h.2.1, h.2.2.1 (by decide), h.2.2.2.1 (by decide), h.2.2.2.2.1 (by decide),
    h.2.2.2.2.2.1 (by decide), h.2.2.2.2.2.2.1 (by decide), h.2.2.2.2.2.2.2⟩

/-- C2: when `position < length`, `push value` writes the value into the
cell at the position, increments the position by exactly one, and
returns a success reference to that cell; when `position = length` (the
cursor is full) it returns the value back unconsumed and changes neither
the cursor state nor the contents of `written()`. -/
theorem push_spec (c : Cursor α) (v : α) :
    (c.position < c.data.length →
      c.push v = ({ position := c.position + 1,
                    data := c.data.set c.position (Cell.init v) }, Except.ok v) ∧
      (c.push v).1.data.get? c.position = some (Cell.init v)) ∧
    (c.position = c.data.length →
      c.push v = (c, Except.error v) ∧ (c.push v).1.written = c.written) := by
  constructor
  · intro h
    refine ⟨by simp [Cursor.push, h], ?_⟩
    simp [Cursor.push, h, get_set_length _ _ _ h]
  · intro h
    have h' : ¬ c.position < c.data.length := by omega
    exact ⟨by simp [Cursor.push, h'], by simp [Cursor.push, h']⟩

/-- Witness for C2: a push into a cursor with room and a push into a full
cursor. -/
theorem push_spec_witness :
    (⟨0, [Cell.uninit]⟩ : Cursor Nat).push 7
      = (⟨1, [Cell.init 7]⟩, Except.ok 7) ∧
    (⟨1, [Cell.init (5 : Nat)]⟩ : Cursor Nat).push 9
      = (⟨1, [Cell.init 5]⟩, Except.error 9) := by
  constructor
  · exact ((push_spec (⟨0, [Cell.uninit]⟩ : Cursor Nat) 7).1 (by decide)).1
  · exact ((push_spec (⟨1, [Cell.init (5 : Nat)]⟩ : Cursor Nat) 9).2 (by decide)).1

/-- C3: `try_cast_initialized` succeeds exactly when
`position = length`; on success it yields the fully-initialized
container holding exactly the written elements (one value per cell), and
on failure it returns the cursor unchanged. -/
theorem try_cast_initialized_spec (c : Cursor α) (l : List α)
    (hp : c.position ≤ c.data.length) (hw : c.written = some l) :
    (c.position = c.data.length →
      c.try_cast_initialized = Except.ok (some l) ∧ l.length = c.data.length) ∧
    (c.position ≠ c.data.length → c.try_cast_initialized = Except.error c) := by
  simp only [Cursor.written] at hw
  constructor
  · intro h
    have hdata : c.data.take c.position = c.data := by
      rw [h, List.take_length]
    have hrc : readCells c.data = some l := by rw [← hdata]; exact hw
    refine ⟨by simp [Cursor.try_cast_initialized, h, hrc], ?_⟩
    have := readCells_length hrc
    omega
  · intro h
    simp [Cursor.try_cast_initialized, h]

/-- Witness for C3: a completely filled cursor and a partially filled
cursor over the same buffer. -/
theorem try_cast_initialized_spec_witness :
    (⟨2, [Cell.init (1 : Nat), Cell.init 2]⟩ : Cursor Nat).try_cast_initialized
      = Except.ok (some [1, 2]) ∧
    (⟨1, [Cell.init (1 : Nat), Cell.init 2]⟩ : Cursor Nat).try_cast_initialized
      = Except.error ⟨1, [Cell.init 1, Cell.init 2]⟩ := by
  constructor
  · exact ((try_cast_initialized_spec
      (⟨2, [Cell.init (1 : Nat), Cell.init 2]⟩ : Cursor Nat) [1, 2]
      (by decide) rfl).1 rfl).1
  · exact (try_cast_initialized_spec
      (⟨1, [Cell.init (1 : Nat), Cell.init 2]⟩ : Cursor Nat) [1]
      (by decide) rfl).2 (by decide)

/-- C4: when `position < required`, `try_pop_slice required` returns
`none` and leaves the cursor unchanged; when `position ≥ required` it
decrements the position by exactly `required` and returns the last
`required` written elements, in order. -/
theorem try_pop_slice_spec (c : Cursor α) (r : Nat) (w : List α)
    (hp : c.position ≤ c.data.length) (hw : c.written = some w) :
    (c.position < r → c.try_pop_slice r = (c, none)) ∧
    (r ≤ c.position →
      (c.try_pop_slice r).1 = { position := c.position - r, data := c.data } ∧
      (c.try_pop_slice r).2 = some (some (w.drop (c.position - r))) ∧
      (w.drop (c.position - r)).length = r) := by
  simp only [Cursor.written] at hw
  constructor
  · intro h
    have h' : ¬ r ≤ c.position := by omega
    simp [Cursor.try_pop_slice, h']
  · intro h
    have hmin : Nat.min c.position r = r := Nat.min_eq_right h
    have hlen : w.length = c.position := by
      have := readCells_length hw
      simpa [List.length_take, Nat.min_eq_left hp] using this
    refine ⟨?_, ?_, ?_⟩
    · simp [Cursor.try_pop_slice, h, Cursor.pop_slice, hmin]
    · simp [Cursor.try_pop_slice, h, Cursor.pop_slice, hmin, readCells_drop hw]
    · simp only [List.length_drop]
      omega

/-- Witness for C4: requesting more than available leaves the cursor
unchanged; requesting exactly the available count pops all of it. -/
theorem try_pop_slice_spec_witness :
    (⟨2, [Cell.init (1 : Nat), Cell.init 2, Cell.uninit]⟩ : Cursor Nat).try_pop_slice 5
      = (⟨2, [Cell.init 1, Cell.init 2, Cell.uninit]⟩, none) ∧
    ((⟨2, [Cell.init (1 : Nat), Cell.init 2, Cell.uninit]⟩ : Cursor Nat).try_pop_slice 2).1
      = ⟨0, [Cell.init 1, Cell.init 2, Cell.uninit]⟩ ∧
    ((⟨2, [Cell.init (1 : Nat), Cell.init 2, Cell.uninit]⟩ : Cursor Nat).try_pop_slice 2).2
      = some (some [1, 2]) := by
  have h := try_pop_slice_spec
    (⟨2, [Cell.init (1 : Nat), Cell.init 2, Cell.uninit]⟩ : Cursor Nat) 2 [1, 2]
    (by decide) rfl
  have h5 := try_pop_slice_spec
    (⟨2, [Cell.init (1 : Nat), Cell.init 2, Cell.uninit]⟩ : Cursor Nat) 5 [1, 2]
    (by decide) rfl
  exact ⟨h5.1 (by decide), (h.2 (by decide)).1, (h.2 (by decide)).2.1⟩

end Claims

section FillDrain

variable {α : Type}

/-- Pushing values onto a cursor whose written region holds `w` and whose
spare region has room for all of them fills the cells in order. -/
theorem pushAll_eq (vs : List α) : ∀ (w : List α) (k : Nat), vs.length ≤ k →
    Cursor.pushAll ⟨w.length, w.map Cell.init ++ List.replicate k Cell.uninit⟩ vs
      = ⟨(w ++ vs).length,
         (w ++ vs).map Cell.init ++ List.replicate (k - vs.length) Cell.uninit⟩ := by
  induction vs with
  | nil => intro w k _; simp [Cursor.pushAll]
  | cons v vs ih =>
    intro w k hk
    cases k with
    | zero => simp at hk
    | succ k' =>
      have hk' : vs.length ≤ k' := by
        simpa using hk
      have hlt : w.length
          < (w.map Cell.init ++ List.replicate (k' + 1) Cell.uninit).length := by
        simp
      have hset : (w.map Cell.init ++ List.replicate (k' + 1) Cell.uninit).set
            w.length (Cell.init v)
          = (w ++ [v]).map Cell.init ++ List.replicate k' Cell.uninit := by
        have hlm : (w.map Cell.init).length = w.length := by simp
        rw [← hlm, set_append_length]
        simp [List.replicate_succ]
      have h1 : w.length + 1 = (w ++ [v]).length := by simp
      simp only [Cursor.pushAll, Cursor.push]
      rw [if_pos hlt]
      simp only [hset, h1, ih (w ++ [v]) k' hk']
      have h2 : (w ++ [v]) ++ vs = w ++ v :: vs := by simp
      rw [h2]
      simp [Nat.succ_sub_succ]

/-- Draining a cursor whose written region holds `w` pops the values in
reverse order, one `some` per pop, and brings the position to 0 without
touching memory. -/
theorem popN_eq (w : List α) : ∀ (rest : List (Cell α)),
    Cursor.popN ⟨w.length, w.map Cell.init ++ rest⟩ w.length
      = (⟨0, w.map Cell.init ++ rest⟩, w.reverse.map some) := by
  induction w using List.reverseRecOn with
  | nil => intro rest; simp [Cursor.popN]
  | append_singleton w a ih =>
    intro rest
    have hdata : (w ++ [a]).map Cell.init ++ rest
        = w.map Cell.init ++ (Cell.init a :: rest) := by simp
    have hlen : (w ++ [a]).length = w.length + 1 := by simp
    have hpop : (Cursor.mk (w.length + 1) (w.map Cell.init ++ Cell.init a :: rest)).pop
        = (Cursor.mk w.length (w.map Cell.init ++ Cell.init a :: rest), some a) := by
      have hc : 0 < w.length + 1 ∧
          w.length + 1 - 1 < (w.map Cell.init ++ Cell.init a :: rest).length := by
        refine ⟨Nat.succ_pos _, ?_⟩
        simp
      have hg : (w.map Cell.init ++ Cell.init a :: rest).get? w.length
          = some (Cell.init a) := by
        have hgen := get_append_length (w.map Cell.init) (Cell.init a) rest
        simpa using hgen
      simp only [Cursor.pop]
      rw [if_pos hc]
      simp only [Nat.add_sub_cancel]
      rw [hg]
      simp [Cell.read]
    rw [hdata, hlen]
    simp only [Cursor.popN]
    rw [hpop, ih (Cell.init a :: rest)]
    simp

end FillDrain

section ClaimsB

variable {α : Type}

/-- C5: over a fresh region of length `N = vs.length`, pushing the `N`
values of `vs` and then popping `N` times returns the values in reverse
order of insertion (each pop returning `some`), and afterwards the
position is 0. -/
theorem fill_drain_reversal (vs : List α) :
    (Cursor.pushAll (Cursor.new (List.replicate vs.length Cell.uninit)) vs).popN
        vs.length
      = (⟨0, vs.map Cell.init⟩, vs.reverse.map some) := by
  have hnew : Cursor.new (List.replicate vs.length Cell.uninit)
      = Cursor.mk (List.length ([] : List α))
          (([] : List α).map Cell.init ++ List.replicate vs.length Cell.uninit) := by
    simp [Cursor.new]
  rw [hnew, pushAll_eq vs [] vs.length (Nat.le_refl _)]
  simp only [List.nil_append, Nat.sub_self, List.replicate_zero, List.append_nil]
  have hpop := popN_eq vs ([] : List (Cell α))
  simp only [List.append_nil] at hpop
  exact hpop

/-- Witness for C5: filling a fresh 2-cell region with `[3, 7]` and
draining it returns `7` then `3`, with the position back at 0. -/
theorem fill_drain_reversal_witness :
    (Cursor.pushAll (Cursor.new (List.replicate 2 Cell.uninit)) ([3, 7] : List Nat)).popN 2
      = (⟨0, [Cell.init 3, Cell.init 7]⟩, [some 7, some 3]) :=
  (fill_drain_reversal ([3, 7] : List Nat)).trans (by decide)

end ClaimsB

section IterHelpers

variable {α : Type}

/-- Closed form of `OutSlice::init_from_iter`: with `k` the minimum of the
destination and source lengths, the first `k` cells become the first `k`
source values, the later cells are untouched, the count and the returned
slice cover exactly those `k` values, and exactly the first `k` source
elements are consumed. -/
theorem init_from_iter_eq (dest : List (Cell α)) (src : List α) :
    OutSlice.init_from_iter dest src
      = ((src.take (Nat.min dest.length src.length)).map Cell.init
           ++ dest.drop (Nat.min dest.length src.length),
         Nat.min dest.length src.length,
         some (src.take (Nat.min dest.length src.length)),
         src.drop (Nat.min dest.length src.length)) := by
  have hlen : ((src.take (Nat.min dest.length src.length)).map Cell.init).length
      = Nat.min dest.length src.length := by
    rw [List.length_map, List.length_take, Nat.min_assoc, Nat.min_self]
  simp only [OutSlice.init_from_iter, initFromIterGo_eq]
  rw [List.take_left' hlen, readCells_map_init]

end IterHelpers

section ClaimsC

variable {α : Type}

/-- C6: `push_iter` writes exactly `k = min(remaining_count, source
length)` elements into the cells `[position, position + k)`, leaving the
buffer length and the other cells unchanged, advances the position by
exactly `k`, and returns a slice holding exactly the `k` newly written
elements. -/
theorem push_iter_spec (c : Cursor α) (src : List α)
    (hp : c.position ≤ c.data.length) :
    (c.push_iter src).1.position
      = c.position + Nat.min c.remaining_count src.length ∧
    (c.push_iter src).1.data.length = c.data.length ∧
    (c.push_iter src).1.data
      = c.data.take c.position
          ++ (src.take (Nat.min c.remaining_count src.length)).map Cell.init
          ++ c.data.drop (c.position + Nat.min c.remaining_count src.length) ∧
    (c.push_iter src).2.1
      = some (src.take (Nat.min c.remaining_count src.length)) ∧
    (src.take (Nat.min c.remaining_count src.length)).length
      = Nat.min c.remaining_count src.length := by
  simp only [Cursor.push_iter, init_from_iter_eq, Cursor.remaining_count,
    List.length_drop]
  have hK1 : Nat.min (c.data.length - c.position) src.length
      ≤ c.data.length - c.position := Nat.min_le_left _ _
  have hK2 : Nat.min (c.data.length - c.position) src.length
      ≤ src.length := Nat.min_le_right _ _
  have htk : (src.take (Nat.min (c.data.length - c.position) src.length)).length
      = Nat.min (c.data.length - c.position) src.length := by
    rw [List.length_take, Nat.min_eq_left hK2]
  have htp : (c.data.take c.position).length = c.position := by
    rw [List.length_take, Nat.min_eq_left hp]
  refine ⟨trivial, ?_, ?_, trivial, htk⟩
  · simp only [List.length_append, List.length_map, htp, htk, List.length_drop]
    omega
  · simp [List.append_assoc, List.drop_drop, Nat.add_comm]

/-- Witness for C6: a cursor with 3 free cells fed from a 5-element
source. -/
theorem push_iter_spec_witness :
    ((⟨1, [Cell.init (5 : Nat), Cell.uninit, Cell.uninit, Cell.uninit]⟩
        : Cursor Nat).push_iter [7, 8, 9, 10, 11]).1.position = 4 ∧
    ((⟨1, [Cell.init (5 : Nat), Cell.uninit, Cell.uninit, Cell.uninit]⟩
        : Cursor Nat).push_iter [7, 8, 9, 10, 11]).1.data
      = [Cell.init 5, Cell.init 7, Cell.init 8, Cell.init 9] ∧
    ((⟨1, [Cell.init (5 : Nat), Cell.uninit, Cell.uninit, Cell.uninit]⟩
        : Cursor Nat).push_iter [7, 8, 9, 10, 11]).2.1 = some [7, 8, 9] := by
  have h := push_iter_spec
    (⟨1, [Cell.init (5 : Nat), Cell.uninit, Cell.uninit, Cell.uninit]⟩ : Cursor Nat)
    [7, 8, 9, 10, 11] (by decide)
  exact ⟨h.1.trans (by decide), h.2.2.1.trans (by decide), h.2.2.2.1.trans (by decide)⟩

/-- C7: for a zero-valid element type, `write_zeroes` overwrites every
cell with the canonical all-zero value of the element type and the
returned initialized slice is that all-zero list; the canonical zero of
the modelled primitive types is the expected one (0, 0, `false`). -/
theorem write_zeroes_spec (α : Type) [ZeroValid α] (cells : List (Cell α)) :
    OutSlice.write_zeroes cells
      = (List.replicate cells.length (Cell.init (ZeroValid.zeroed : α)),
         some (List.replicate cells.length (ZeroValid.zeroed : α))) ∧
    (ZeroValid.zeroed : Nat) = 0 ∧
    (ZeroValid.zeroed : Int) = 0 ∧
    (ZeroValid.zeroed : Bool) = false := by
  refine ⟨?_, rfl, rfl, rfl⟩
  have hrep : List.replicate cells.length (Cell.init (ZeroValid.zeroed : α))
      = (List.replicate cells.length (ZeroValid.zeroed : α)).map Cell.init := by
    simp [List.map_replicate]
  simp only [OutSlice.write_zeroes]
  rw [map_const_replicate cells (Cell.init (ZeroValid.zeroed : α)), hrep,
    readCells_map_init]

/-- Witness for C7 over `Nat` cells. -/
theorem write_zeroes_spec_witness :
    OutSlice.write_zeroes [Cell.uninit, Cell.init (7 : Nat)]
      = ([Cell.init 0, Cell.init 0], some [0, 0]) := by
  have h := (write_zeroes_spec Nat [Cell.uninit, Cell.init (7 : Nat)]).1
  simpa using h

/-- C8: the exact-length bulk copy `copy_from_slice` (and so
`init_with_copy_from_slice`) panics exactly when the destination and
source lengths differ and otherwise copies the whole source, never
truncating; the explicit truncating variant
`init_with_copy_from_slice_min` never panics and copies exactly
`min(destination length, source length)` elements. -/
theorem copy_from_slice_spec (dest : List (Cell α)) (src : List α) :
    (dest.length ≠ src.length → OutSlice.copy_from_slice dest src = none) ∧
    (dest.length = src.length →
      OutSlice.copy_from_slice dest src = some (src.map Cell.init, src)) ∧
    BorrowOutSlice.init_with_copy_from_slice_min dest src
      = some ((src.take (Nat.min dest.length src.length)).map Cell.init
                ++ dest.drop (Nat.min dest.length src.length),
              src.take (Nat.min dest.length src.length)) ∧
    (src.take (Nat.min dest.length src.length)).length
      = Nat.min dest.length src.length := by
  have hK1 : Nat.min dest.length src.length ≤ dest.length := Nat.min_le_left _ _
  have hK2 : Nat.min dest.length src.length ≤ src.length := Nat.min_le_right _ _
  have h1 : (dest.take (Nat.min dest.length src.length)).length
      = Nat.min dest.length src.length := by
    rw [List.length_take, Nat.min_eq_left hK1]
  have h2 : (src.take (Nat.min dest.length src.length)).length
      = Nat.min dest.length src.length := by
    rw [List.length_take, Nat.min_eq_left hK2]
  refine ⟨fun h => by simp [OutSlice.copy_from_slice, h],
    fun h => by simp [OutSlice.copy_from_slice, h], ?_, h2⟩
  simp [BorrowOutSlice.init_with_copy_from_slice_min, OutSlice.copy_from_slice,
    h1, h2]

/-- Witness for C8: mismatched lengths panic, matched lengths copy fully,
and the truncating variant copies the minimum. -/
theorem copy_from_slice_spec_witness :
    OutSlice.copy_from_slice [Cell.uninit] ([1, 2] : List Nat) = none ∧
    OutSlice.copy_from_slice [Cell.uninit, Cell.uninit] ([1, 2] : List Nat)
      = some ([Cell.init 1, Cell.init 2], [1, 2]) ∧
    BorrowOutSlice.init_with_copy_from_slice_min [Cell.uninit] ([1, 2] : List Nat)
      = some ([Cell.init 1], [1]) := by
  refine ⟨(copy_from_slice_spec [Cell.uninit] ([1, 2] : List Nat)).1 (by decide),
    (copy_from_slice_spec [Cell.uninit, Cell.uninit] ([1, 2] : List Nat)).2.1 rfl, ?_⟩
  have h := (copy_from_slice_spec [Cell.uninit] ([1, 2] : List Nat)).2.2.1
  simpa using h

/-- C9: `init_from_iter` (and so `push_iter`) pulls exactly as many
elements from the source as cells it initializes — the count is
`min(destination length, source length)`, the unconsumed remainder is
exactly the rest of the source, and in particular a full buffer pulls
nothing from the source. -/
theorem init_from_iter_consumption (dest : List (Cell α)) (src : List α)
    (c : Cursor α) (src2 : List α) :
    (OutSlice.init_from_iter dest src).2.1 = Nat.min dest.length src.length ∧
    (OutSlice.init_from_iter dest src).2.2.2
      = src.drop (Nat.min dest.length src.length) ∧
    src.take (Nat.min dest.length src.length)
        ++ (OutSlice.init_from_iter dest src).2.2.2 = src ∧
    (OutSlice.init_from_iter ([] : List (Cell α)) src).2.2.2 = src ∧
    (c.push_iter src2).2.2
      = src2.drop (Nat.min c.remaining_count src2.length) := by
  refine ⟨?_, ?_, ?_, ?_, ?_⟩
  · rw [init_from_iter_eq]
  · rw [init_from_iter_eq]
  · rw [init_from_iter_eq]
    exact List.take_append_drop _ _
  · rw [init_from_iter_eq]
    simp
  · have hK : Nat.min c.remaining_count src2.length
        = Nat.min (c.data.drop c.position).length src2.length := by
      simp [Cursor.remaining_count]
    simp only [Cursor.push_iter, init_from_iter_eq]
    rw [hK]

/-- Witness for C9: a source of 4 elements against a 2-cell buffer leaves
2 elements unconsumed; against a full (0-cell) buffer it is untouched. -/
theorem init_from_iter_consumption_witness :
    (OutSlice.init_from_iter [Cell.uninit, Cell.uninit] ([1, 2, 3, 4] : List Nat)).2.2.2
      = [3, 4] ∧
    (OutSlice.init_from_iter ([] : List (Cell Nat)) ([1, 2, 3, 4] : List Nat)).2.2.2
      = [1, 2, 3, 4] ∧
    ((⟨1, [Cell.init (9 : Nat)]⟩ : Cursor Nat).push_iter [5, 6]).2.2 = [5, 6] := by
  have h := init_from_iter_consumption [Cell.uninit, Cell.uninit]
    ([1, 2, 3, 4] : List Nat) (⟨1, [Cell.init (9 : Nat)]⟩ : Cursor Nat) [5, 6]
  exact ⟨h.2.1.trans (by decide), h.2.2.2.1, h.2.2.2.2.trans (by decide)⟩

/-- C10: for a buffer backed by an already-initialized slice,
`zero_if_needed` returns the slice with all prior contents unchanged (no
zeroing), while the default implementation for possibly-uninitialized
cells overwrites every element with zeroes before returning it. -/
theorem zero_if_needed_spec (α : Type) [ZeroValid α] (xs : List α)
    (cells : List (Cell α)) :
    BorrowOutSlice.zero_if_needed_slice xs = xs ∧
    BorrowOutSlice.zero_if_needed_default cells
      = (List.replicate cells.length (Cell.init (ZeroValid.zeroed : α)),
         some (List.replicate cells.length (ZeroValid.zeroed : α))) := by
  refine ⟨rfl, ?_⟩
  have hrep : List.replicate cells.length (Cell.init (ZeroValid.zeroed : α))
      = (List.replicate cells.length (ZeroValid.zeroed : α)).map Cell.init := by
    simp [List.map_replicate]
  simp only [BorrowOutSlice.zero_if_needed_default, OutSlice.write_zeroes]
  rw [map_const_replicate cells (Cell.init (ZeroValid.zeroed : α)), hrep,
    readCells_map_init]

/-- Witness for C10: an initialized `Nat` slice passes through untouched;
an uninitialized buffer comes back all zero. -/
theorem zero_if_needed_spec_witness :
    BorrowOutSlice.zero_if_needed_slice ([3, 4] : List Nat) = [3, 4] ∧
    BorrowOutSlice.zero_if_needed_default [Cell.uninit, Cell.init (9 : Nat)]
      = ([Cell.init 0, Cell.init 0], some [0, 0]) := by
  have h := zero_if_needed_spec Nat [3, 4] [Cell.uninit, Cell.init (9 : Nat)]
  exact ⟨h.1, by simpa using h.2⟩

end ClaimsC

end PossiblyUninit
